import Mathlib

/-!
Shallow embedding of the SiCDS deduplication service (`sicds/app.py`):
the data model (schemas), the fact store interface, the dedup engine
(`SiCDSApp._process`), the two handlers (`_identify`, `_register`) and the
WSGI protocol layer (`SiCDSApp.__call__`), together with theorems settling
the stated properties of each part.
-/

deriving instance DecidableEq for Except

namespace SiCDS

/-- A single discriminating field (schema `Dif` in `app.py`):
with required fields `type` and `value`, both unicode. -/
structure Dif where
  type : String
  value : String
deriving DecidableEq

/-- Schema `DifCollection`: required fields `name` (unicode) and `difs`, at least one `Dif`.
The non-emptiness constraint enforced by the validator is carried as a
hypothesis where a claim needs it. -/
structure DifCollection where
  name : String
  difs : List Dif
deriving DecidableEq

/-- Schema `ContentItem`: required fields `id` (unicode) and `difcollections`, at least one `DifCollection`. -/
structure ContentItem where
  id : String
  difcollections : List DifCollection
deriving DecidableEq

/-- Schema `IDRequest`: required fields `key` (string) and `contentItems`, at least one `ContentItem`. -/
structure IDRequest where
  key : String
  contentItems : List ContentItem
deriving DecidableEq

/-- Schema `IDResult`: required fields `id` (unicode) and `result` (validated by `v_idresult`); the `result`
field stores the rendered literal string. -/
structure IDResult where
  id : String
  result : String
deriving DecidableEq

/-- Schema `IDResponse`: required fields `key` (string) and `results`, at least one `IDResult`. -/
structure IDResponse where
  key : String
  results : List IDResult
deriving DecidableEq

/-- Schema `KeyRegRequest`: required string fields `superkey` and `newkey`. -/
structure KeyRegRequest where
  superkey : String
  newkey : String
deriving DecidableEq

/-- Schema `KeyRegResponse`: required fields `key` (string) and `registered` (validated by `v_keyregresult`). -/
structure KeyRegResponse where
  key : String
  registered : String
deriving DecidableEq

/-- Function `v_idresult` in `app.py`: renders the uniqueness boolean as a literal. -/
def v_idresult (uniq : Bool) : String :=
  if uniq then "unique" else "duplicate"

/-- Function `v_keyregresult` in `app.py`: renders the registration boolean as a literal. -/
def v_keyregresult (registered : Bool) : String :=
  if registered then "registered" else "already registered"

/-- The unordered set of difs a collection is keyed by in the fact store
(`has`/`add` compare collections as sets of (type,value) pairs). -/
def difset (difs : List Dif) : Finset Dif := difs.toFinset

/-- Modelled from the spec: the FactStore external collaborator (§6 of the
spec; the backend implementations are not under `src/`). It is a key-scoped
set of previously seen dif-sets plus a persisted key ledger. -/
structure FactStore where
  keyset : Finset String
  facts : Finset (String × Finset Dif)
deriving DecidableEq

/-- Modelled from the spec: `has(key, difs) -> bool`, membership of the
unordered dif-set under the key. -/
def FactStore.has (s : FactStore) (key : String) (difs : Finset Dif) : Bool :=
  decide ((key, difs) ∈ s.facts)

/-- Modelled from the spec: `add(key, difs)`, records the dif-set under the key. -/
def FactStore.add (s : FactStore) (key : String) (difs : Finset Dif) : FactStore :=
  { s with facts := insert (key, difs) s.facts }

/-- Modelled from the spec: `register_key(newkey) -> Registered|AlreadyRegistered`,
persists a key and reports whether it was new. -/
def FactStore.register_key (s : FactStore) (newkey : String) : Bool × FactStore :=
  (decide (newkey ∉ s.keyset), { s with keyset := insert newkey s.keyset })

/-- Modelled from the spec: `ensure_keys(keys)`, idempotently pre-registers
a batch of keys at startup. -/
def FactStore.ensure_keys (s : FactStore) (keys : Finset String) : FactStore :=
  { s with keyset := s.keyset ∪ keys }

/-- The application state of `SiCDSApp`: the in-memory authorized key set,
the configured super-key and the fact store (loggers are not on the
decision path and are omitted). -/
structure SiCDSApp where
  keys : Finset String
  superkey : String
  store : FactStore
deriving DecidableEq

/-- Constant `SiCDSApp.REQMAXBYTES = 1024`: max size of request body. -/
def SiCDSApp.REQMAXBYTES : Nat := 1024

/-- Route `SiCDSApp.R_IDENTIFY`. -/
def SiCDSApp.R_IDENTIFY : String := "/"

/-- Route `SiCDSApp.R_REGISTER_KEY`. -/
def SiCDSApp.R_REGISTER_KEY : String := "/register"

/-- The body of the inner loop of `SiCDSApp._process`: check one collection
against the store, clearing the uniqueness flag if it is already present
and recording it otherwise. -/
def SiCDSApp.step (key : String) (acc : Bool × FactStore) (collection : DifCollection) :
    Bool × FactStore :=
  let difs := difset collection.difs
  if acc.2.has key difs then (false, acc.2) else (acc.1, acc.2.add key difs)

/-- The per-item part of `SiCDSApp._process`: scan the collections of the item in
order, starting from `uniq = True`, threading the store. Returns the final
flag and store. -/
def SiCDSApp.processItem (key : String) (st : FactStore) (item : ContentItem) :
    Bool × FactStore :=
  item.difcollections.foldl (SiCDSApp.step key) (true, st)

/-- The body of the outer loop of `SiCDSApp._process`: scan one item and
append its id to `uniqitems` or `dupitems` according to the final flag. -/
def SiCDSApp.itemStep (key : String) (acc : List String × List String × FactStore)
    (item : ContentItem) : List String × List String × FactStore :=
  let r := SiCDSApp.processItem key acc.2.2 item
  if r.1 then (acc.1 ++ [item.id], acc.2.1, r.2)
  else (acc.1, acc.2.1 ++ [item.id], r.2)

/-- Method `SiCDSApp._process(key, items)`: returns `(uniqitems, dupitems)` id lists
(each in submission order) and the final store. -/
def SiCDSApp.process (key : String) (st : FactStore) (items : List ContentItem) :
    List String × List String × FactStore :=
  items.foldl (SiCDSApp.itemStep key) ([], [], st)

/-- The wire-level error vocabulary of the protocol layer. -/
inductive HError where
  | notFound
  | methodNotAllowed
  | tooLarge
  | badRequest
  | forbidden
deriving DecidableEq

/-- HTTP status of each error (`webob.exc` classes raised in `app.py`). -/
def HError.status : HError → Nat
  | .notFound => 404
  | .methodNotAllowed => 405
  | .tooLarge => 413
  | .badRequest => 400
  | .forbidden => 403

/-- Handler `SiCDSApp._identify(json)` after validation: authorization check, then
the dedup scan, then the response built as the unique ids followed by the
duplicate ids, each rendered through `v_idresult`. On error the state is
returned unchanged (the exception propagates before any mutation). -/
def SiCDSApp.identify (app : SiCDSApp) (data : IDRequest) :
    Except HError IDResponse × SiCDSApp :=
  if data.key ∈ app.keys then
    let r := SiCDSApp.process data.key app.store data.contentItems
    (Except.ok
      { key := data.key
        results := r.1.map (fun i => { id := i, result := v_idresult true }) ++
                   r.2.1.map (fun i => { id := i, result := v_idresult false }) },
      { app with store := r.2.2 })
  else (Except.error HError.forbidden, app)

/-- Handler `SiCDSApp._register(json)` after validation: super-key check (raises
Forbidden before any mutation), then the store persists the key, then the
key is added to the in-memory set, then the response is rendered through
`v_keyregresult`. -/
def SiCDSApp.register (app : SiCDSApp) (data : KeyRegRequest) :
    Except HError KeyRegResponse × SiCDSApp :=
  if data.superkey ≠ app.superkey then (Except.error HError.forbidden, app)
  else
    let r := app.store.register_key data.newkey
    (Except.ok { key := data.newkey, registered := v_keyregresult r.1 },
      { app with keys := insert data.newkey app.keys, store := r.2 })

/-- Modelled from the spec: the result of JSON-parsing and Schema-validating
a request body (the `Schema` validator in `sicds/schema.py` is not under
`src/`). A parseable body either fits the identify schema, fits the
key-registration schema, or fits neither (`other`); schema violations raise
plain exceptions which `__call__` maps to 400. -/
inductive ReqJson where
  | idreq (r : IDRequest)
  | keyreg (r : KeyRegRequest)
  | other
deriving DecidableEq

/-- An incoming WSGI request as `SiCDSApp.__call__` consumes it:
`path_info`, `method`, the declared `content_length` header (absent gives
`none`; Python compares `None > 1024` as false), the actual body byte
length (never consulted by the size gate) and the parse/validation result
of the body (`none` = not valid JSON). -/
structure Request where
  path_info : String
  method : String
  content_length : Option Nat
  body_bytes : Nat
  body : Option ReqJson
deriving DecidableEq

/-- A successful response body: one of the two handler responses. -/
inductive RespBody where
  | idresp (r : IDResponse)
  | keyregresp (r : KeyRegResponse)
deriving DecidableEq

/-- Method `SiCDSApp.__call__`: route check, method check, size check against the
declared content length, body parse, then dispatch; `HTTPException`s are
re-raised and any other exception (malformed JSON, schema violations)
becomes `HTTPBadRequest`. The application state is threaded explicitly. -/
def SiCDSApp.call (app : SiCDSApp) (req : Request) :
    Except HError RespBody × SiCDSApp :=
  if req.path_info ≠ SiCDSApp.R_IDENTIFY ∧ req.path_info ≠ SiCDSApp.R_REGISTER_KEY then
    (Except.error HError.notFound, app)
  else if req.method ≠ "POST" then
    (Except.error HError.methodNotAllowed, app)
  else if (match req.content_length with
           | some n => decide (n > SiCDSApp.REQMAXBYTES)
           | none => false) then
    (Except.error HError.tooLarge, app)
  else
    match req.body with
    | none => (Except.error HError.badRequest, app)
    | some j =>
      if req.path_info = SiCDSApp.R_IDENTIFY then
        match j with
        | ReqJson.idreq r =>
          let res := app.identify r
          (res.1.map RespBody.idresp, res.2)
        | _ => (Except.error HError.badRequest, app)
      else
        match j with
        | ReqJson.keyreg r =>
          let res := app.register r
          (res.1.map RespBody.keyregresp, res.2)
        | _ => (Except.error HError.badRequest, app)

/-- The HTTP status code of a handled call. -/
def status {α : Type} (r : Except HError α) : Nat :=
  match r with
  | Except.ok _ => 200
  | Except.error e => e.status

/-- Processing a sequence of requests, threading the application state. -/
def runSeq (app : SiCDSApp) (reqs : List Request) : SiCDSApp :=
  reqs.foldl (fun a r => (a.call r).2) app

/-! ## Specification-side descriptions of the per-item scan -/

/-- The store evolution of the inner loop of `_process` taken on its own:
each absent collection is recorded as it is checked. -/
def scanStore (key : String) (st : FactStore) (colls : List DifCollection) : FactStore :=
  colls.foldl
    (fun s c => if s.has key (difset c.difs) then s else s.add key (difset c.difs)) st

/-- Returns `true` iff every collection of the list is absent from the store at the
moment it is checked, with absent collections recorded as the scan goes. -/
def allAbsentB (key : String) : FactStore → List DifCollection → Bool
  | _, [] => true
  | st, c :: rest =>
    (!(st.has key (difset c.difs))) &&
      allAbsentB key
        (if st.has key (difset c.difs) then st else st.add key (difset c.difs)) rest

/-- The `i`-th collection of the list is already present in the store at the
moment the scan checks it (i.e. in the store as evolved over the first `i`
collections). -/
def presentAtCheck (key : String) (st : FactStore) (colls : List DifCollection)
    (i : Fin colls.length) : Prop :=
  (key, difset (colls.get i).difs) ∈ (scanStore key st (colls.take i.1)).facts

/-- The store state just before the `m`-th item of a request is scanned. -/
def storeBefore (key : String) (st : FactStore) (items : List ContentItem) (m : Nat) :
    FactStore :=
  (SiCDSApp.process key st (items.take m)).2.2

/-- Two stores agree on the facts recorded under a given key. -/
def agree (key : String) (st1 st2 : FactStore) : Prop :=
  ∀ difs : Finset Dif, ((key, difs) ∈ st1.facts ↔ (key, difs) ∈ st2.facts)

/-! ## Scan lemmas -/

lemma scanStore_cons (key : String) (st : FactStore) (c : DifCollection)
    (rest : List DifCollection) :
    scanStore key st (c :: rest) =
      scanStore key (if st.has key (difset c.difs) then st else st.add key (difset c.difs))
        rest := rfl

lemma foldl_step_eq (key : String) :
    ∀ (colls : List DifCollection) (b : Bool) (st : FactStore),
      colls.foldl (SiCDSApp.step key) (b, st) =
        (b && allAbsentB key st colls, scanStore key st colls)
  | [], b, st => by simp [allAbsentB, scanStore]
  | c :: rest, b, st => by
    cases h : st.has key (difset c.difs) with
    | false =>
      simp only [List.foldl_cons, SiCDSApp.step, h, if_neg, Bool.false_eq_true,
        not_false_eq_true, scanStore_cons, allAbsentB]
      rw [foldl_step_eq key rest b (st.add key (difset c.difs))]
      simp [h]
    | true =>
      simp only [List.foldl_cons, SiCDSApp.step, h, if_pos, scanStore_cons, allAbsentB]
      rw [foldl_step_eq key rest false st]
      simp [h]

lemma processItem_eq (key : String) (st : FactStore) (item : ContentItem) :
    SiCDSApp.processItem key st item =
      (allAbsentB key st item.difcollections, scanStore key st item.difcollections) := by
  unfold SiCDSApp.processItem
  rw [foldl_step_eq]
  simp

lemma scanStore_facts (key : String) :
    ∀ (colls : List DifCollection) (st : FactStore),
      (scanStore key st colls).facts =
        st.facts ∪ (colls.map (fun c => (key, difset c.difs))).toFinset
  | [], st => by simp [scanStore]
  | c :: rest, st => by
    rw [scanStore_cons]
    cases h : st.has key (difset c.difs) with
    | false =>
      simp only [h, if_neg, Bool.false_eq_true, not_false_eq_true]
      rw [scanStore_facts key rest (st.add key (difset c.difs))]
      simp only [FactStore.add, List.map_cons, List.toFinset_cons]
      rw [Finset.union_insert, Finset.insert_union]
    | true =>
      simp only [h, if_pos]
      rw [scanStore_facts key rest st]
      have hmem : (key, difset c.difs) ∈ st.facts := by
        simpa [FactStore.has] using h
      simp only [List.map_cons, List.toFinset_cons, Finset.union_insert]
      rw [Finset.insert_eq_self.2 (Finset.mem_union_left _ hmem)]

lemma scanStore_facts_subset (key : String) (colls : List DifCollection) (st : FactStore) :
    st.facts ⊆ (scanStore key st colls).facts := by
  rw [scanStore_facts]
  exact Finset.subset_union_left

lemma presentAtCheck_cons_zero (key : String) (st : FactStore) (c : DifCollection)
    (rest : List DifCollection) :
    presentAtCheck key st (c :: rest) ⟨0, Nat.succ_pos _⟩ ↔ (key, difset c.difs) ∈ st.facts := by
  simp [presentAtCheck, scanStore]

lemma presentAtCheck_cons_succ (key : String) (st : FactStore) (c : DifCollection)
    (rest : List DifCollection) (i : Fin rest.length) :
    presentAtCheck key st (c :: rest) i.succ ↔
      presentAtCheck key
        (if st.has key (difset c.difs) then st else st.add key (difset c.difs)) rest i := by
  unfold presentAtCheck
  rw [show (i.succ : Fin (c :: rest).length).1 = i.1 + 1 from rfl]
  rw [List.take_succ_cons, scanStore_cons]
  rfl

lemma allAbsent_iff (key : String) :
    ∀ (colls : List DifCollection) (st : FactStore),
      allAbsentB key st colls = true ↔
        ∀ i : Fin colls.length, ¬ presentAtCheck key st colls i
  | [], st => by
    constructor
    · intro _ i
      exact i.elim0
    · intro _
      rfl
  | c :: rest, st => by
    by_cases h : (key, difset c.difs) ∈ st.facts
    · have hhas : st.has key (difset c.difs) = true := by simp [FactStore.has, h]
      have h0 : presentAtCheck key st (c :: rest) ⟨0, Nat.succ_pos _⟩ :=
        (presentAtCheck_cons_zero key st c rest).2 h
      constructor
      · intro hab
        simp [allAbsentB, hhas] at hab
      · intro hall
        exact absurd h0 (hall _)
    · have hhas : st.has key (difset c.difs) = false := by simp [FactStore.has, h]
      have hrest := allAbsent_iff key rest (st.add key (difset c.difs))
      constructor
      · intro hab i
        rcases Fin.eq_zero_or_eq_succ i with hi | ⟨j, hj⟩
        · subst hi
          intro hpres
          exact h ((presentAtCheck_cons_zero key st c rest).1 hpres)
        · subst hj
          rw [presentAtCheck_cons_succ key st c rest j, hhas]
          simp only [Bool.false_eq_true, if_neg, not_false_eq_true, ite_false]
          simp only [allAbsentB, hhas, Bool.not_false, Bool.true_and] at hab
          exact hrest.1 hab j
      · intro hall
        simp only [allAbsentB, hhas, Bool.not_false, Bool.true_and]
        apply hrest.2
        intro j
        have := hall j.succ
        rw [presentAtCheck_cons_succ key st c rest j, hhas] at this
        simpa using this

/-! ## Lemmas about the outer loop of `_process` -/

lemma foldl_itemStep_acc (key : String) :
    ∀ (items : List ContentItem) (u d : List String) (s : FactStore),
      items.foldl (SiCDSApp.itemStep key) (u, d, s) =
        (u ++ (SiCDSApp.process key s items).1,
         d ++ (SiCDSApp.process key s items).2.1,
         (SiCDSApp.process key s items).2.2)
  | [], u, d, s => by simp [SiCDSApp.process]
  | it :: items, u, d, s => by
    simp only [SiCDSApp.process, List.foldl_cons]
    cases hf : (SiCDSApp.processItem key s it).1 with
    | true =>
      simp only [SiCDSApp.itemStep, hf, if_pos, List.nil_append]
      rw [foldl_itemStep_acc key items (u ++ [it.id]) d (SiCDSApp.processItem key s it).2,
        foldl_itemStep_acc key items [it.id] [] (SiCDSApp.processItem key s it).2]
      simp [SiCDSApp.process, List.append_assoc]
    | false =>
      simp only [SiCDSApp.itemStep, hf, Bool.false_eq_true, if_neg, not_false_eq_true,
        List.nil_append, ite_false]
      rw [foldl_itemStep_acc key items u (d ++ [it.id]) (SiCDSApp.processItem key s it).2,
        foldl_itemStep_acc key items [] [it.id] (SiCDSApp.processItem key s it).2]
      simp [SiCDSApp.process, List.append_assoc]

lemma process_append (key : String) (l1 l2 : List ContentItem) (st : FactStore) :
    SiCDSApp.process key st (l1 ++ l2) =
      ((SiCDSApp.process key st l1).1 ++
         (SiCDSApp.process key (SiCDSApp.process key st l1).2.2 l2).1,
       (SiCDSApp.process key st l1).2.1 ++
         (SiCDSApp.process key (SiCDSApp.process key st l1).2.2 l2).2.1,
       (SiCDSApp.process key (SiCDSApp.process key st l1).2.2 l2).2.2) := by
  conv_lhs => rw [SiCDSApp.process, List.foldl_append]
  rw [show (List.foldl (SiCDSApp.itemStep key) ([], [], st) l1) = SiCDSApp.process key st l1
      from rfl]
  rw [show (SiCDSApp.process key st l1) =
      ((SiCDSApp.process key st l1).1, (SiCDSApp.process key st l1).2.1,
        (SiCDSApp.process key st l1).2.2) from rfl]
  rw [foldl_itemStep_acc key l2]

lemma process_take_succ (key : String) (st : FactStore) (items : List ContentItem)
    (m : Fin items.length) :
    SiCDSApp.process key st (items.take (m.1 + 1)) =
      (if (SiCDSApp.processItem key (storeBefore key st items m.1) (items.get m)).1 then
        ((SiCDSApp.process key st (items.take m.1)).1 ++ [(items.get m).id],
         (SiCDSApp.process key st (items.take m.1)).2.1,
         (SiCDSApp.processItem key (storeBefore key st items m.1) (items.get m)).2)
      else
        ((SiCDSApp.process key st (items.take m.1)).1,
         (SiCDSApp.process key st (items.take m.1)).2.1 ++ [(items.get m).id],
         (SiCDSApp.processItem key (storeBefore key st items m.1) (items.get m)).2)) := by
  have htake : items.take (m.1 + 1) = items.take m.1 ++ [items.get m] := by
    rw [List.take_succ]
    simp [List.getElem?_eq_getElem m.2, List.get_eq_getElem]
  rw [htake, process_append]
  have hsingle : ∀ s : FactStore, SiCDSApp.process key s [items.get m] =
      (if (SiCDSApp.processItem key s (items.get m)).1 then
        ([(items.get m).id], [], (SiCDSApp.processItem key s (items.get m)).2)
      else ([], [(items.get m).id], (SiCDSApp.processItem key s (items.get m)).2)) := by
    intro s
    simp only [SiCDSApp.process, List.foldl_cons, List.foldl_nil, SiCDSApp.itemStep,
      List.nil_append]
  rw [hsingle]
  unfold storeBefore
  split <;> simp

lemma process_cons_store (key : String) (st : FactStore) (it : ContentItem)
    (items : List ContentItem) :
    (SiCDSApp.process key st (it :: items)).2.2 =
      (SiCDSApp.process key (SiCDSApp.processItem key st it).2 items).2.2 := by
  simp only [SiCDSApp.process, List.foldl_cons]
  cases hf : (SiCDSApp.processItem key st it).1 with
  | true =>
    simp only [SiCDSApp.itemStep, hf, if_pos, List.nil_append]
    rw [foldl_itemStep_acc key items [it.id] [] (SiCDSApp.processItem key st it).2]
    rfl
  | false =>
    simp only [SiCDSApp.itemStep, hf, Bool.false_eq_true, if_neg, not_false_eq_true,
      List.nil_append, ite_false]
    rw [foldl_itemStep_acc key items [] [it.id] (SiCDSApp.processItem key st it).2]
    rfl

lemma process_cons (key : String) (st : FactStore) (it : ContentItem)
    (items : List ContentItem) :
    SiCDSApp.process key st (it :: items) =
      (if (SiCDSApp.processItem key st it).1 then
        (it.id :: (SiCDSApp.process key (SiCDSApp.processItem key st it).2 items).1,
         (SiCDSApp.process key (SiCDSApp.processItem key st it).2 items).2.1,
         (SiCDSApp.process key (SiCDSApp.processItem key st it).2 items).2.2)
      else
        ((SiCDSApp.process key (SiCDSApp.processItem key st it).2 items).1,
         it.id :: (SiCDSApp.process key (SiCDSApp.processItem key st it).2 items).2.1,
         (SiCDSApp.process key (SiCDSApp.processItem key st it).2 items).2.2)) := by
  conv_lhs => rw [SiCDSApp.process, List.foldl_cons]
  cases hf : (SiCDSApp.processItem key st it).1 with
  | true =>
    simp only [SiCDSApp.itemStep, hf, if_pos, List.nil_append]
    rw [foldl_itemStep_acc key items [it.id] [] (SiCDSApp.processItem key st it).2]
    simp
  | false =>
    simp only [SiCDSApp.itemStep, hf, Bool.false_eq_true, if_neg, not_false_eq_true,
      List.nil_append, ite_false]
    rw [foldl_itemStep_acc key items [] [it.id] (SiCDSApp.processItem key st it).2]
    simp

lemma processItem_facts_subset (key : String) (st : FactStore) (it : ContentItem) :
    st.facts ⊆ (SiCDSApp.processItem key st it).2.facts := by
  rw [processItem_eq]
  exact scanStore_facts_subset key it.difcollections st

lemma process_facts_subset (key : String) :
    ∀ (items : List ContentItem) (st : FactStore),
      st.facts ⊆ (SiCDSApp.process key st items).2.2.facts
  | [], st => by simp [SiCDSApp.process]
  | it :: items, st => by
    rw [process_cons_store]
    exact (processItem_facts_subset key st it).trans
      (process_facts_subset key items (SiCDSApp.processItem key st it).2)

lemma storeBefore_facts_mono (key : String) (st : FactStore) (items : List ContentItem)
    {i j : Nat} (hij : i ≤ j) :
    (storeBefore key st items i).facts ⊆ (storeBefore key st items j).facts := by
  have hsplit : items.take j = items.take i ++ (items.take j).drop i := by
    conv_lhs => rw [← List.take_append_drop i (items.take j)]
    rw [List.take_take, Nat.min_eq_left hij]
  unfold storeBefore
  rw [hsplit, process_append]
  exact process_facts_subset key _ _

lemma processItem_facts (key : String) (st : FactStore) (it : ContentItem) :
    (SiCDSApp.processItem key st it).2.facts =
      st.facts ∪ (it.difcollections.map (fun c => (key, difset c.difs))).toFinset := by
  rw [processItem_eq]
  exact scanStore_facts key it.difcollections st

lemma collections_recorded (key : String) (st : FactStore) (items : List ContentItem)
    (i : Fin items.length) (c : DifCollection) (hc : c ∈ (items.get i).difcollections)
    {j : Nat} (hij : i.1 < j) :
    (key, difset c.difs) ∈ (storeBefore key st items j).facts := by
  have h1 : (key, difset c.difs) ∈ (storeBefore key st items (i.1 + 1)).facts := by
    unfold storeBefore
    rw [process_take_succ key st items i]
    have hin : (key, difset c.difs) ∈
        (SiCDSApp.processItem key (storeBefore key st items i.1) (items.get i)).2.facts := by
      rw [processItem_facts]
      refine Finset.mem_union_right _ ?_
      rw [List.mem_toFinset]
      exact List.mem_map.2 ⟨c, hc, rfl⟩
    split <;> simpa using hin
  exact storeBefore_facts_mono key st items hij h1

lemma mem_uniq_of_flag (key : String) (st : FactStore) (items : List ContentItem)
    (m : Fin items.length)
    (h : (SiCDSApp.processItem key (storeBefore key st items m.1) (items.get m)).1 = true) :
    (items.get m).id ∈ (SiCDSApp.process key st items).1 := by
  simp only [List.get_eq_getElem] at h
  have happ := process_append key (items.take (m.1 + 1)) (items.drop (m.1 + 1)) st
  rw [List.take_append_drop] at happ
  rw [happ, process_take_succ key st items m]
  simp [h]

lemma mem_dup_of_flag (key : String) (st : FactStore) (items : List ContentItem)
    (m : Fin items.length)
    (h : (SiCDSApp.processItem key (storeBefore key st items m.1) (items.get m)).1 = false) :
    (items.get m).id ∈ (SiCDSApp.process key st items).2.1 := by
  simp only [List.get_eq_getElem] at h
  have happ := process_append key (items.take (m.1 + 1)) (items.drop (m.1 + 1)) st
  rw [List.take_append_drop] at happ
  rw [happ, process_take_succ key st items m]
  simp [h]

lemma process_ids (key : String) :
    ∀ (items : List ContentItem) (st : FactStore),
      List.Sublist (SiCDSApp.process key st items).1 (items.map ContentItem.id) ∧
      List.Sublist (SiCDSApp.process key st items).2.1 (items.map ContentItem.id) ∧
      ((SiCDSApp.process key st items).1 : Multiset String) +
          ((SiCDSApp.process key st items).2.1 : Multiset String) =
        (items.map ContentItem.id : Multiset String)
  | [], st => by simp [SiCDSApp.process]
  | it :: items, st => by
    obtain ⟨h1, h2, h3⟩ := process_ids key items (SiCDSApp.processItem key st it).2
    rw [process_cons]
    cases hf : (SiCDSApp.processItem key st it).1 with
    | true =>
      refine ⟨?_, ?_, ?_⟩
      · simpa using h1.cons₂ it.id
      · simpa using h2.cons it.id
      · simp only [if_pos, List.map_cons]
        rw [← Multiset.cons_coe, ← Multiset.cons_coe, Multiset.cons_add, h3]
    | false =>
      refine ⟨?_, ?_, ?_⟩
      · simpa using h1.cons it.id
      · simpa using h2.cons₂ it.id
      · simp only [Bool.false_eq_true, if_neg, not_false_eq_true, ite_false, List.map_cons]
        rw [← Multiset.cons_coe, ← Multiset.cons_coe, Multiset.add_cons, h3]

/-! ## Frame lemmas: facts under other keys, and dependence only on the facts of one key -/

lemma mem_map_difset {k2 key : String} {difs : Finset Dif} {colls : List DifCollection}
    (h : (k2, difs) ∈ (colls.map (fun c => (key, difset c.difs))).toFinset) : k2 = key := by
  rw [List.mem_toFinset] at h
  obtain ⟨c, -, hc⟩ := List.mem_map.1 h
  exact (congrArg Prod.fst hc).symm

lemma process_facts_frame (key : String) :
    ∀ (items : List ContentItem) (st : FactStore) (k2 : String) (difs : Finset Dif),
      k2 ≠ key →
      ((k2, difs) ∈ (SiCDSApp.process key st items).2.2.facts ↔ (k2, difs) ∈ st.facts)
  | [], st, k2, difs, h => by simp [SiCDSApp.process]
  | it :: items, st, k2, difs, h => by
    rw [process_cons_store,
      process_facts_frame key items (SiCDSApp.processItem key st it).2 k2 difs h,
      processItem_facts]
    constructor
    · intro hm
      rcases Finset.mem_union.1 hm with hm | hm
      · exact hm
      · exact absurd (mem_map_difset hm) h
    · exact fun hm => Finset.mem_union_left _ hm

lemma has_eq_of_agree {key : String} {st1 st2 : FactStore} (h : agree key st1 st2)
    (difs : Finset Dif) : st1.has key difs = st2.has key difs := by
  unfold FactStore.has
  exact decide_eq_decide.2 (h difs)

lemma agree_add {key : String} {st1 st2 : FactStore} (h : agree key st1 st2)
    (difs : Finset Dif) :
    agree key (st1.add key difs) (st2.add key difs) := by
  intro d
  simp [FactStore.add, Finset.mem_insert, h d]

lemma scan_agree (key : String) :
    ∀ (colls : List DifCollection) (st1 st2 : FactStore), agree key st1 st2 →
      allAbsentB key st1 colls = allAbsentB key st2 colls ∧
        agree key (scanStore key st1 colls) (scanStore key st2 colls)
  | [], st1, st2, h => ⟨rfl, h⟩
  | c :: rest, st1, st2, h => by
    have hhas := has_eq_of_agree h (difset c.difs)
    have hnext : agree key
        (if st1.has key (difset c.difs) then st1 else st1.add key (difset c.difs))
        (if st2.has key (difset c.difs) then st2 else st2.add key (difset c.difs)) := by
      rw [← hhas]
      cases hb : st1.has key (difset c.difs) with
      | true => simpa using h
      | false => simpa using agree_add h (difset c.difs)
    obtain ⟨ih1, ih2⟩ := scan_agree key rest _ _ hnext
    refine ⟨?_, ?_⟩
    · simp only [allAbsentB]
      simp only [hhas] at ih1 ⊢
      rw [ih1]
    · rw [scanStore_cons, scanStore_cons]
      exact ih2

lemma processItem_agree {key : String} {st1 st2 : FactStore} (h : agree key st1 st2)
    (it : ContentItem) :
    (SiCDSApp.processItem key st1 it).1 = (SiCDSApp.processItem key st2 it).1 ∧
      agree key (SiCDSApp.processItem key st1 it).2 (SiCDSApp.processItem key st2 it).2 := by
  rw [processItem_eq, processItem_eq]
  exact scan_agree key it.difcollections st1 st2 h

lemma process_agree (key : String) :
    ∀ (items : List ContentItem) (st1 st2 : FactStore), agree key st1 st2 →
      (SiCDSApp.process key st1 items).1 = (SiCDSApp.process key st2 items).1 ∧
        (SiCDSApp.process key st1 items).2.1 = (SiCDSApp.process key st2 items).2.1 ∧
        agree key (SiCDSApp.process key st1 items).2.2 (SiCDSApp.process key st2 items).2.2
  | [], st1, st2, h => ⟨rfl, rfl, h⟩
  | it :: items, st1, st2, h => by
    obtain ⟨hflag, hag⟩ := processItem_agree h it
    obtain ⟨ih1, ih2, ih3⟩ := process_agree key items _ _ hag
    rw [process_cons, process_cons, hflag]
    cases hf : (SiCDSApp.processItem key st2 it).1 with
    | true => exact ⟨by simp [ih1], by simp [ih2], by simpa using ih3⟩
    | false => exact ⟨by simp [ih1], by simp [ih2], by simpa using ih3⟩

/-- A scan of pairwise-distinct collections over a store holding no fact
under the key finds every collection absent at its check. -/
lemma allAbsent_of_fresh_distinct (key : String) (st : FactStore)
    (colls : List DifCollection)
    (hfresh : ∀ difs : Finset Dif, (key, difs) ∉ st.facts)
    (hdist : colls.Pairwise (fun a b => difset a.difs ≠ difset b.difs)) :
    allAbsentB key st colls = true := by
  rw [allAbsent_iff]
  intro i hpres
  unfold presentAtCheck at hpres
  rw [scanStore_facts] at hpres
  rcases Finset.mem_union.1 hpres with hm | hm
  · exact hfresh _ hm
  · rw [List.mem_toFinset] at hm
    obtain ⟨c, hcmem, hceq⟩ := List.mem_map.1 hm
    have hset : difset c.difs = difset (colls.get i).difs :=
      congrArg Prod.snd hceq
    obtain ⟨j, hj⟩ := List.mem_iff_get.1 hcmem
    have hjlt : j.1 < i.1 := lt_of_lt_of_le j.2 (by simp [List.length_take])
    have hget : (colls.take i.1).get j = colls.get ⟨j.1, lt_trans hjlt i.2⟩ := by
      simp [List.get_eq_getElem, List.getElem_take]
    have hpair := (List.pairwise_iff_get.1 hdist) ⟨j.1, lt_trans hjlt i.2⟩ i hjlt
    have hc : colls.get ⟨j.1, lt_trans hjlt i.2⟩ = c := hget.symm.trans hj
    exact hpair (by rw [hc]; exact hset)

/-! ## Concrete values used by witnesses and counterexamples -/

/-- A concrete dif. -/
def wdif1 : Dif := { type := "t", value := "v1" }

/-- A second concrete dif. -/
def wdif2 : Dif := { type := "t", value := "v2" }

/-- A concrete one-collection item. -/
def witem : ContentItem :=
  { id := "x", difcollections := [{ name := "n", difs := [wdif1] }] }

/-- A store with no keys and no facts. -/
def emptyStore : FactStore := { keyset := ∅, facts := ∅ }

/-! ## C1 -/

/-- C1: during the scan of an item (the `m`-th of the request), the item is
classified unique iff none of its collections is present in the fact store
under the key at the moment that collection is checked; the final store
records every collection of the item (in particular every one found absent),
so a duplicate item still writes new facts; and the id of the item goes to the
`uniqitems` list iff the flag survived, to `dupitems` otherwise. -/
theorem c1_unique_iff_none_present_at_check (key : String) (st : FactStore)
    (items : List ContentItem) (hne : items ≠ []) (m : Fin items.length) :
    ((SiCDSApp.processItem key (storeBefore key st items m.1) (items.get m)).1 = true ↔
      ∀ i : Fin (items.get m).difcollections.length,
        ¬ presentAtCheck key (storeBefore key st items m.1) (items.get m).difcollections i) ∧
    (SiCDSApp.processItem key (storeBefore key st items m.1) (items.get m)).2.facts =
      (storeBefore key st items m.1).facts ∪
        ((items.get m).difcollections.map (fun c => (key, difset c.difs))).toFinset ∧
    ((SiCDSApp.processItem key (storeBefore key st items m.1) (items.get m)).1 = true →
      (items.get m).id ∈ (SiCDSApp.process key st items).1) ∧
    ((SiCDSApp.processItem key (storeBefore key st items m.1) (items.get m)).1 = false →
      (items.get m).id ∈ (SiCDSApp.process key st items).2.1) := by
  refine ⟨?_, ?_, ?_, ?_⟩
  · rw [processItem_eq]
    exact allAbsent_iff key (items.get m).difcollections (storeBefore key st items m.1)
  · exact processItem_facts key (storeBefore key st items m.1) (items.get m)
  · exact mem_uniq_of_flag key st items m
  · exact mem_dup_of_flag key st items m

/-- Witness for C1 at a concrete input. -/
theorem c1_witness :
    ([witem] ≠ ([] : List ContentItem)) ∧
    ((SiCDSApp.processItem "k" (storeBefore "k" emptyStore [witem] (0 : Fin 1).1)
        ([witem].get (0 : Fin 1))).1 = true ↔
      ∀ i : Fin ([witem].get (0 : Fin 1)).difcollections.length,
        ¬ presentAtCheck "k" (storeBefore "k" emptyStore [witem] (0 : Fin 1).1)
          ([witem].get (0 : Fin 1)).difcollections i) :=
  ⟨by decide,
   (c1_unique_iff_none_present_at_check "k" emptyStore [witem] (by decide) (0 : Fin 1)).1⟩

/-! ## C6 -/

/-- C6: a registration whose superkey differs from the configured super-key
fails with Forbidden (HTTP 403) and leaves the application state — both the
in-memory key set and the fact store — unchanged. -/
theorem c6_bad_superkey_forbidden_no_mutation (app : SiCDSApp) (data : KeyRegRequest)
    (h : data.superkey ≠ app.superkey) :
    app.register data = (Except.error HError.forbidden, app) ∧
    HError.forbidden.status = 403 := by
  refine ⟨?_, rfl⟩
  simp [SiCDSApp.register, h]

/-- Witness for C6 at a concrete input. -/
theorem c6_witness :
    ("wrong" : String) ≠ ("sk" : String) ∧
    (SiCDSApp.register { keys := ∅, superkey := "sk", store := emptyStore }
        { superkey := "wrong", newkey := "nk" } =
      (Except.error HError.forbidden,
        { keys := ∅, superkey := "sk", store := emptyStore }) ∧
      HError.forbidden.status = 403) :=
  ⟨by decide,
   c6_bad_superkey_forbidden_no_mutation
     { keys := ∅, superkey := "sk", store := emptyStore }
     { superkey := "wrong", newkey := "nk" } (by decide)⟩

/-! ## C7 -/

/-- C7: registering a fresh key with the correct super-key answers
`registered`, doing it again answers `already registered`; on every
successful registration the key is added to the in-memory set regardless of
the answer of the store, and the key set after the second registration equals the
set after the first. -/
theorem c7_registration_idempotent (app : SiCDSApp) (data : KeyRegRequest)
    (hsk : data.superkey = app.superkey) (hnew : data.newkey ∉ app.store.keyset) :
    (app.register data).1 = Except.ok { key := data.newkey, registered := "registered" } ∧
    ((app.register data).2.register data).1 =
      Except.ok { key := data.newkey, registered := "already registered" } ∧
    ((app.register data).2.register data).2.keys = (app.register data).2.keys ∧
    data.newkey ∈ (app.register data).2.keys ∧
    (∀ (app2 : SiCDSApp) (d2 : KeyRegRequest), d2.superkey = app2.superkey →
      d2.newkey ∈ (app2.register d2).2.keys) := by
  have h1 : app.register data =
      (Except.ok { key := data.newkey, registered := "registered" },
        { app with keys := insert data.newkey app.keys,
                   store := { app.store with keyset := insert data.newkey app.store.keyset } }) := by
    simp [SiCDSApp.register, hsk, FactStore.register_key, hnew, v_keyregresult]
  have h2 : ((app.register data).2).register data =
      (Except.ok { key := data.newkey, registered := "already registered" },
        { (app.register data).2 with
            keys := insert data.newkey ((app.register data).2).keys,
            store := { ((app.register data).2).store with
              keyset := insert data.newkey ((app.register data).2).store.keyset } }) := by
    rw [h1]
    simp [SiCDSApp.register, hsk, FactStore.register_key, v_keyregresult,
      Finset.mem_insert_self]
  refine ⟨by rw [h1], by rw [h2], ?_, ?_, ?_⟩
  · rw [h2]
    rw [h1]
    simp [Finset.insert_idem]
  · rw [h1]
    exact Finset.mem_insert_self _ _
  · intro app2 d2 hsk2
    simp [SiCDSApp.register, hsk2, FactStore.register_key, Finset.mem_insert_self]

/-- Witness for C7 at a concrete input. -/
theorem c7_witness :
    ("sk" : String) = "sk" ∧ ("nk" : String) ∉ emptyStore.keyset ∧
    ((SiCDSApp.register { keys := ∅, superkey := "sk", store := emptyStore }
        { superkey := "sk", newkey := "nk" }).1 =
      Except.ok { key := "nk", registered := "registered" }) :=
  ⟨rfl, by decide,
   (c7_registration_idempotent { keys := ∅, superkey := "sk", store := emptyStore }
     { superkey := "sk", newkey := "nk" } rfl (by decide)).1⟩

/-! ## C2 (corrected: results are unique items first, then duplicate items) -/

/-- App used by the C2 counterexample: key `k` authorized, one fact already
recorded under `k`. -/
def c2app : SiCDSApp :=
  { keys := {"k"}, superkey := "sk",
    store := { keyset := {"k"}, facts := {("k", difset [wdif1])} } }

/-- Request used by the C2 counterexample: item `a` (already seen) before
item `b` (fresh). -/
def c2req : IDRequest :=
  { key := "k"
    contentItems :=
      [ { id := "a", difcollections := [{ name := "n", difs := [wdif1] }] },
        { id := "b", difcollections := [{ name := "m", difs := [wdif2] }] } ] }

/-- C2 counterexample: the response lists the unique item `b` before the
duplicate item `a`, so the results are NOT in the submission order
`[a, b]`. -/
theorem c2_counterexample :
    ((c2app.identify c2req).1.map (fun r => r.results.map IDResult.id)) =
      Except.ok ["b", "a"] ∧
    c2req.contentItems.map ContentItem.id = ["a", "b"] ∧
    (Except.ok ["b", "a"] : Except HError (List String)) ≠ Except.ok ["a", "b"] := by
  decide

/-- C2 amended: with an authorized key the response carries exactly one
result per submitted item (same ids, counted with multiplicity, and equal
lengths), but ordered as the unique items in submission order followed by
the duplicate items in submission order — not the overall submission
order. -/
theorem c2_one_result_per_item_uniq_then_dup (app : SiCDSApp) (req : IDRequest)
    (hkey : req.key ∈ app.keys) :
    ∃ resp : IDResponse, (app.identify req).1 = Except.ok resp ∧
      resp.key = req.key ∧
      resp.results =
        (SiCDSApp.process req.key app.store req.contentItems).1.map
          (fun i => { id := i, result := v_idresult true }) ++
        (SiCDSApp.process req.key app.store req.contentItems).2.1.map
          (fun i => { id := i, result := v_idresult false }) ∧
      List.Sublist (SiCDSApp.process req.key app.store req.contentItems).1
        (req.contentItems.map ContentItem.id) ∧
      List.Sublist (SiCDSApp.process req.key app.store req.contentItems).2.1
        (req.contentItems.map ContentItem.id) ∧
      (resp.results.map IDResult.id : Multiset String) =
        (req.contentItems.map ContentItem.id : Multiset String) ∧
      resp.results.length = req.contentItems.length := by
  obtain ⟨h1, h2, h3⟩ := process_ids req.key req.contentItems app.store
  refine ⟨{ key := req.key
            results :=
              (SiCDSApp.process req.key app.store req.contentItems).1.map
                (fun i => { id := i, result := v_idresult true }) ++
              (SiCDSApp.process req.key app.store req.contentItems).2.1.map
                (fun i => { id := i, result := v_idresult false }) },
    ?_, rfl, rfl, h1, h2, ?_, ?_⟩
  · simp [SiCDSApp.identify, hkey]
  · simp only [List.map_append, List.map_map]
    have hu : (IDResult.id ∘ fun i => ({ id := i, result := v_idresult true } : IDResult)) =
        id := rfl
    have hd : (IDResult.id ∘ fun i => ({ id := i, result := v_idresult false } : IDResult)) =
        id := rfl
    rw [hu, hd, List.map_id, List.map_id, ← Multiset.coe_add]
    exact h3
  · simp only [List.length_append, List.length_map]
    have hcard := congrArg Multiset.card h3
    simpa using hcard

/-- Witness for the amended C2 at a concrete input. -/
theorem c2_witness :
    c2req.key ∈ c2app.keys ∧
    (∃ resp : IDResponse, (c2app.identify c2req).1 = Except.ok resp ∧
      resp.key = c2req.key ∧
      resp.results =
        (SiCDSApp.process c2req.key c2app.store c2req.contentItems).1.map
          (fun i => { id := i, result := v_idresult true }) ++
        (SiCDSApp.process c2req.key c2app.store c2req.contentItems).2.1.map
          (fun i => { id := i, result := v_idresult false }) ∧
      List.Sublist (SiCDSApp.process c2req.key c2app.store c2req.contentItems).1
        (c2req.contentItems.map ContentItem.id) ∧
      List.Sublist (SiCDSApp.process c2req.key c2app.store c2req.contentItems).2.1
        (c2req.contentItems.map ContentItem.id) ∧
      (resp.results.map IDResult.id : Multiset String) =
        (c2req.contentItems.map ContentItem.id : Multiset String) ∧
      resp.results.length = c2req.contentItems.length) :=
  ⟨by decide, c2_one_result_per_item_uniq_then_dup c2app c2req (by decide)⟩

/-! ## C3 -/

/-- C3: when every collection of a later item repeats (as a dif-set) some
collection of an earlier item of the same request, the earlier occurrences
have been recorded by the time the later item is scanned, and the later
item is classified duplicate within the same request. -/
theorem c3_in_request_recording (key : String) (st : FactStore) (items : List ContentItem)
    (i j : Fin items.length) (hij : i.1 < j.1)
    (hne : (items.get j).difcollections ≠ [])
    (hfresh : ∀ c ∈ (items.get j).difcollections, (key, difset c.difs) ∉ st.facts)
    (hrep : ∀ c ∈ (items.get j).difcollections,
      ∃ c2 ∈ (items.get i).difcollections, difset c.difs = difset c2.difs) :
    (∀ c2 ∈ (items.get i).difcollections,
      (key, difset c2.difs) ∈ (storeBefore key st items j.1).facts) ∧
    (items.get j).id ∈ (SiCDSApp.process key st items).2.1 := by
  have hrec : ∀ c2 ∈ (items.get i).difcollections,
      (key, difset c2.difs) ∈ (storeBefore key st items j.1).facts := by
    intro c2 hc2
    exact collections_recorded key st items i c2 hc2 hij
  refine ⟨hrec, ?_⟩
  apply mem_dup_of_flag
  cases hf : (SiCDSApp.processItem key (storeBefore key st items j.1) (items.get j)).1 with
  | false => rfl
  | true =>
    exfalso
    have hflag : allAbsentB key (storeBefore key st items j.1)
        (items.get j).difcollections = true := by
      rw [processItem_eq] at hf
      simpa using hf
    have hall := (allAbsent_iff key (items.get j).difcollections
      (storeBefore key st items j.1)).1 hflag
    have hlen : 0 < (items.get j).difcollections.length := List.length_pos.2 hne
    obtain ⟨c2, hc2mem, hc2eq⟩ :=
      hrep ((items.get j).difcollections.get ⟨0, hlen⟩) (List.get_mem _ _ _)
    apply hall ⟨0, hlen⟩
    unfold presentAtCheck
    rw [show ((⟨0, hlen⟩ : Fin (items.get j).difcollections.length)).1 = 0 from rfl,
      List.take_zero]
    rw [show scanStore key (storeBefore key st items j.1) [] =
        storeBefore key st items j.1 from rfl]
    rw [hc2eq]
    exact hrec c2 hc2mem

/-- Items used by the C3 witness: two items sharing the same dif-set under
differently named collections. -/
def c3items : List ContentItem :=
  [ { id := "a", difcollections := [{ name := "n1", difs := [wdif1] }] },
    { id := "b", difcollections := [{ name := "n2", difs := [wdif1] }] } ]

/-- Witness for C3 at a concrete input. -/
theorem c3_witness :
    (0 : Nat) < 1 ∧
    (c3items.get ⟨1, by decide⟩).difcollections ≠ [] ∧
    (∀ c ∈ (c3items.get ⟨1, by decide⟩).difcollections,
      ("k", difset c.difs) ∉ emptyStore.facts) ∧
    (∀ c ∈ (c3items.get ⟨1, by decide⟩).difcollections,
      ∃ c2 ∈ (c3items.get ⟨0, by decide⟩).difcollections,
        difset c.difs = difset c2.difs) ∧
    (c3items.get ⟨1, by decide⟩).id ∈ (SiCDSApp.process "k" emptyStore c3items).2.1 :=
  ⟨by decide, by decide, by decide, by decide,
   (c3_in_request_recording "k" emptyStore c3items ⟨0, by decide⟩ ⟨1, by decide⟩
     (by decide) (by decide) (by decide) (by decide)).2⟩

/-! ## C4 -/

/-- C4: collections are stored by the unordered set of their difs, so after
an item with difs `[d1, d2]` is identified (unique), an item with
`[d2, d1]` under the same not-previously-seen pair is identified duplicate,
whatever the collection names and item ids. -/
theorem c4_dif_order_irrelevant (app : SiCDSApp) (d1 d2 : Dif)
    (key id1 id2 n1 n2 : String)
    (hkey : key ∈ app.keys)
    (hfresh : (key, difset [d1, d2]) ∉ app.store.facts) :
    difset [d2, d1] = difset [d1, d2] ∧
    (app.identify { key := key, contentItems :=
        [{ id := id1, difcollections := [{ name := n1, difs := [d1, d2] }] }] }).1 =
      Except.ok { key := key, results := [{ id := id1, result := "unique" }] } ∧
    ((app.identify { key := key, contentItems :=
        [{ id := id1, difcollections := [{ name := n1, difs := [d1, d2] }] }] }).2.identify
      { key := key, contentItems :=
        [{ id := id2, difcollections := [{ name := n2, difs := [d2, d1] }] }] }).1 =
      Except.ok { key := key, results := [{ id := id2, result := "duplicate" }] } := by
  have hsets : difset [d2, d1] = difset [d1, d2] := by
    simp only [difset, List.toFinset_cons, List.toFinset_nil, insert_emptyc_eq]
    exact Finset.pair_comm d2 d1
  have hpi1 : SiCDSApp.processItem key app.store
      { id := id1, difcollections := [{ name := n1, difs := [d1, d2] }] } =
      (true, app.store.add key (difset [d1, d2])) := by
    simp [SiCDSApp.processItem, SiCDSApp.step, FactStore.has, hfresh]
  have h1 : app.identify { key := key, contentItems :=
      [{ id := id1, difcollections := [{ name := n1, difs := [d1, d2] }] }] } =
      (Except.ok { key := key, results := [{ id := id1, result := "unique" }] },
       { app with store := app.store.add key (difset [d1, d2]) }) := by
    simp [SiCDSApp.identify, hkey, SiCDSApp.process, SiCDSApp.itemStep, hpi1, v_idresult]
  have hpi2 : SiCDSApp.processItem key (app.store.add key (difset [d1, d2]))
      { id := id2, difcollections := [{ name := n2, difs := [d2, d1] }] } =
      (false, app.store.add key (difset [d1, d2])) := by
    simp [SiCDSApp.processItem, SiCDSApp.step, FactStore.has, FactStore.add, hsets]
  refine ⟨hsets, by rw [h1], ?_⟩
  rw [h1]
  simp [SiCDSApp.identify, hkey, SiCDSApp.process, SiCDSApp.itemStep, hpi2, v_idresult]

/-- Witness for C4 at a concrete input. -/
theorem c4_witness :
    ("k" : String) ∈ ({"k"} : Finset String) ∧
    ("k", difset [wdif1, wdif2]) ∉ emptyStore.facts ∧
    difset [wdif2, wdif1] = difset [wdif1, wdif2] :=
  ⟨by decide, by decide,
   (c4_dif_order_irrelevant { keys := {"k"}, superkey := "sk", store := emptyStore }
     wdif1 wdif2 "k" "i1" "i2" "n1" "n2" (by decide) (by decide)).1⟩

/-! ## C5 (corrected: the consequence needs pairwise-distinct collections) -/

/-- App used by the C5 counterexample: keys `K` and `K2` authorized, one
fact recorded under `K` only. -/
def c5app : SiCDSApp :=
  { keys := {"K", "K2"}, superkey := "sk",
    store := { keyset := {"K", "K2"}, facts := {("K", difset [wdif1])} } }

/-- Item used by the C5 counterexample: its two collections carry the same
dif-set under different names. -/
def c5item : ContentItem :=
  { id := "x"
    difcollections :=
      [{ name := "n", difs := [wdif1] }, { name := "m", difs := [wdif1] }] }

/-- C5 counterexample: `c5item` is classified duplicate under `K`, the key
`K2` is authorized and has no recorded facts at all, yet the item is also
classified duplicate — not unique — when first submitted under `K2`,
because its second collection repeats its first. -/
theorem c5_counterexample :
    (c5app.identify { key := "K", contentItems := [c5item] }).1 =
      Except.ok { key := "K", results := [{ id := "x", result := "duplicate" }] } ∧
    (c5app.identify { key := "K2", contentItems := [c5item] }).1 =
      Except.ok { key := "K2", results := [{ id := "x", result := "duplicate" }] } ∧
    (∀ difs : Finset Dif, ("K2", difs) ∉ c5app.store.facts) := by
  refine ⟨by decide, by decide, ?_⟩
  intro difs h
  rw [show c5app.store.facts = {("K", difset [wdif1])} from rfl,
    Finset.mem_singleton] at h
  have heq : ("K2" : String) = "K" := congrArg Prod.fst h
  exact absurd heq (by decide)

/-- C5 amended: an identify call reads and writes facts only under its own
key — facts under any other key are untouched, and the classification lists
depend only on the facts recorded under the key of the request — and an item
classified duplicate under K is classified unique when first submitted
under a fresh, newly registered key K2 *provided its collections are
pairwise distinct as dif-sets* (an item that repeats one of its own
collections is duplicate under every fresh key). -/
theorem c5_key_isolation (app : SiCDSApp) (req : IDRequest) (k2 : String)
    (app2 : SiCDSApp) (item : ContentItem)
    (hk2 : k2 ≠ req.key)
    (hk2mem : k2 ∈ app2.keys)
    (hfresh2 : ∀ difs : Finset Dif, (k2, difs) ∉ app2.store.facts)
    (hne : item.difcollections ≠ [])
    (hdist : item.difcollections.Pairwise (fun a b => difset a.difs ≠ difset b.difs))
    (hdupK : item.id ∈ (SiCDSApp.process req.key app.store [item]).2.1) :
    (∀ difs : Finset Dif,
      ((k2, difs) ∈ (app.identify req).2.store.facts ↔ (k2, difs) ∈ app.store.facts)) ∧
    (∀ st1 st2 : FactStore, agree req.key st1 st2 →
      (SiCDSApp.process req.key st1 req.contentItems).1 =
        (SiCDSApp.process req.key st2 req.contentItems).1 ∧
      (SiCDSApp.process req.key st1 req.contentItems).2.1 =
        (SiCDSApp.process req.key st2 req.contentItems).2.1) ∧
    (app2.identify { key := k2, contentItems := [item] }).1 =
      Except.ok { key := k2, results := [{ id := item.id, result := "unique" }] } := by
  refine ⟨?_, ?_, ?_⟩
  · intro difs
    by_cases hmem : req.key ∈ app.keys
    · simp only [SiCDSApp.identify, hmem, if_pos]
      exact process_facts_frame req.key req.contentItems app.store k2 difs hk2
    · simp [SiCDSApp.identify, hmem]
  · intro st1 st2 hag
    obtain ⟨h1, h2, -⟩ := process_agree req.key req.contentItems st1 st2 hag
    exact ⟨h1, h2⟩
  · have huniq : (SiCDSApp.processItem k2 app2.store item).1 = true := by
      rw [processItem_eq]
      simpa using allAbsent_of_fresh_distinct k2 app2.store item.difcollections hfresh2 hdist
    simp [SiCDSApp.identify, hk2mem, SiCDSApp.process, SiCDSApp.itemStep, huniq, v_idresult]

/-- Item used by the C5 witness: a single fresh collection. -/
def c5witem : ContentItem :=
  { id := "y", difcollections := [{ name := "n", difs := [wdif2] }] }

/-- App used by the C5 witness as the key-K side: `c5witem` is already
recorded under `K`. -/
def c5wapp : SiCDSApp :=
  { keys := {"K"}, superkey := "sk",
    store := { keyset := {"K"}, facts := {("K", difset [wdif2])} } }

/-- Witness for the amended C5 at a concrete input. -/
theorem c5_witness :
    ("K2" : String) ≠ "K" ∧ ("K2" : String) ∈ c5app.keys ∧
    c5witem.difcollections ≠ [] ∧
    c5witem.id ∈ (SiCDSApp.process "K" c5wapp.store [c5witem]).2.1 ∧
    (c5app.identify { key := "K2", contentItems := [c5witem] }).1 =
      Except.ok { key := "K2", results := [{ id := c5witem.id, result := "unique" }] } := by
  have hfr : ∀ difs : Finset Dif, ("K2", difs) ∉ c5app.store.facts := by
    intro difs h
    rw [show c5app.store.facts = {("K", difset [wdif1])} from rfl,
      Finset.mem_singleton] at h
    have heq : ("K2" : String) = "K" := congrArg Prod.fst h
    exact absurd heq (by decide)
  have happ := c5_key_isolation c5wapp { key := "K", contentItems := [c5witem] } "K2"
    c5app c5witem (by decide) (by decide) hfr (by decide) (by decide) (by decide)
  exact ⟨by decide, by decide, by decide, by decide, happ.2.2⟩

/-! ## Protocol-layer lemmas -/

lemma status_map {A B : Type} (x : Except HError A) (f : A → B) :
    status (x.map f) = status x := by
  cases x <;> rfl

lemma identify_status (app : SiCDSApp) (r : IDRequest) :
    status (app.identify r).1 = 200 ∨ status (app.identify r).1 = 403 := by
  unfold SiCDSApp.identify
  by_cases h : r.key ∈ app.keys
  · simp [h, status]
  · simp [h, status, HError.status]

lemma identify_keys (app : SiCDSApp) (r : IDRequest) :
    (app.identify r).2.keys = app.keys := by
  unfold SiCDSApp.identify
  by_cases h : r.key ∈ app.keys <;> simp [h]

lemma register_status (app : SiCDSApp) (data : KeyRegRequest) :
    status (app.register data).1 = 200 ∨ status (app.register data).1 = 403 := by
  unfold SiCDSApp.register
  by_cases h : data.superkey ≠ app.superkey
  · simp [h, status, HError.status]
  · simp [h, status]

lemma register_cases (app : SiCDSApp) (data : KeyRegRequest) :
    app.register data = (Except.error HError.forbidden, app) ∨
    ((∃ resp, (app.register data).1 = Except.ok resp) ∧
      (app.register data).2.keys = insert data.newkey app.keys) := by
  unfold SiCDSApp.register
  by_cases h : data.superkey ≠ app.superkey
  · simp [h]
  · simp [h]

lemma call_keys_cases (app : SiCDSApp) (req : Request) :
    ((app.call req).2.keys = app.keys) ∨
    (req.path_info = SiCDSApp.R_REGISTER_KEY ∧
      (∃ resp, (app.call req).1 = Except.ok resp) ∧
      ∃ k, (app.call req).2.keys = insert k app.keys) := by
  unfold SiCDSApp.call
  split
  · exact Or.inl rfl
  · rename_i hroute
    split
    · exact Or.inl rfl
    · split
      · exact Or.inl rfl
      · split
        · exact Or.inl rfl
        · split
          · split
            · exact Or.inl (identify_keys app _)
            · exact Or.inl rfl
          · rename_i hnotid
            have hreg : req.path_info = SiCDSApp.R_REGISTER_KEY := by
              rcases not_and_or.1 hroute with h | h
              · exact absurd (not_not.1 h) hnotid
              · exact not_not.1 h
            split
            · rename_i data hbodyeq
              rcases register_cases app data with h | ⟨⟨resp, hresp⟩, hkeys⟩
              · rw [h]
                exact Or.inl rfl
              · refine Or.inr ⟨hreg, ⟨RespBody.keyregresp resp, ?_⟩, data.newkey, hkeys⟩
                show ((app.register data).1.map RespBody.keyregresp) = _
                rw [hresp]
                rfl
            · exact Or.inl rfl

lemma call_keys_subset (app : SiCDSApp) (req : Request) :
    app.keys ⊆ (app.call req).2.keys := by
  rcases call_keys_cases app req with h | ⟨-, -, k, h⟩
  · rw [h]
  · rw [h]
    exact Finset.subset_insert k app.keys

lemma runSeq_keys_mono :
    ∀ (reqs : List Request) (app : SiCDSApp), app.keys ⊆ (runSeq app reqs).keys
  | [], _ => Finset.Subset.refl _
  | r :: rs, app =>
    (call_keys_subset app r).trans (runSeq_keys_mono rs (app.call r).2)

lemma call_not_tooLarge (app : SiCDSApp) (req : Request)
    (hsize : (match req.content_length with
      | some k => decide (k > SiCDSApp.REQMAXBYTES)
      | none => false) = false) :
    status (app.call req).1 ≠ 413 := by
  unfold SiCDSApp.call
  split
  · simp [status, HError.status]
  · split
    · simp [status, HError.status]
    · rw [hsize]
      simp only [Bool.false_eq_true, if_neg, not_false_eq_true, ite_false]
      split
      · simp [status, HError.status]
      · split
        · split
          · rename_i r hbodyeq
            rcases identify_status app r with h | h <;> simp [status_map, h]
          · simp [status, HError.status]
        · split
          · rename_i r hbodyeq
            rcases register_status app r with h | h <;> simp [status_map, h]
          · simp [status, HError.status]

/-! ## C8 -/

/-- C8: the protocol gates fire in the fixed order path (404), method (405),
size (413, on the declared content length, before the body is looked at),
body parse / schema shape (400); and every handled call has a status among
200, 400, 403, 404, 405 and 413 — in particular never 500. -/
theorem c8_gate_order (app : SiCDSApp) (req : Request) (n : Nat) :
    (req.path_info ≠ SiCDSApp.R_IDENTIFY → req.path_info ≠ SiCDSApp.R_REGISTER_KEY →
      app.call req = (Except.error HError.notFound, app)) ∧
    ((req.path_info = SiCDSApp.R_IDENTIFY ∨ req.path_info = SiCDSApp.R_REGISTER_KEY) →
      req.method ≠ "POST" → app.call req = (Except.error HError.methodNotAllowed, app)) ∧
    ((req.path_info = SiCDSApp.R_IDENTIFY ∨ req.path_info = SiCDSApp.R_REGISTER_KEY) →
      req.method = "POST" → req.content_length = some n → SiCDSApp.REQMAXBYTES < n →
      app.call req = (Except.error HError.tooLarge, app)) ∧
    ((req.path_info = SiCDSApp.R_IDENTIFY ∨ req.path_info = SiCDSApp.R_REGISTER_KEY) →
      req.method = "POST" →
      (∀ k, req.content_length = some k → k ≤ SiCDSApp.REQMAXBYTES) →
      req.body = none → app.call req = (Except.error HError.badRequest, app)) ∧
    (req.path_info = SiCDSApp.R_IDENTIFY → req.method = "POST" →
      (∀ k, req.content_length = some k → k ≤ SiCDSApp.REQMAXBYTES) →
      (∀ j, req.body = some j → ∀ r, j ≠ ReqJson.idreq r) → req.body ≠ none →
      app.call req = (Except.error HError.badRequest, app)) ∧
    (req.path_info = SiCDSApp.R_REGISTER_KEY → req.method = "POST" →
      (∀ k, req.content_length = some k → k ≤ SiCDSApp.REQMAXBYTES) →
      (∀ j, req.body = some j → ∀ r, j ≠ ReqJson.keyreg r) → req.body ≠ none →
      app.call req = (Except.error HError.badRequest, app)) ∧
    status (app.call req).1 ∈ ([200, 400, 403, 404, 405, 413] : List Nat) := by
  have hid_ne_reg : SiCDSApp.R_IDENTIFY ≠ SiCDSApp.R_REGISTER_KEY := by decide
  refine ⟨?_, ?_, ?_, ?_, ?_, ?_, ?_⟩
  · intro h1 h2
    simp [SiCDSApp.call, h1, h2]
  · intro hp hm
    rcases hp with hp | hp <;> simp [SiCDSApp.call, hp, hm]
  · intro hp hm hcl hlt
    have hcond : (match req.content_length with
        | some k => decide (k > SiCDSApp.REQMAXBYTES)
        | none => false) = true := by
      rw [hcl]
      simpa using hlt
    rcases hp with hp | hp <;> simp [SiCDSApp.call, hp, hm, hcond]
  · intro hp hm hsize hbody
    have hcond : (match req.content_length with
        | some k => decide (k > SiCDSApp.REQMAXBYTES)
        | none => false) = false := by
      cases hcl : req.content_length with
      | none => rfl
      | some k =>
        simpa using Nat.not_lt.2 (hsize k hcl)
    rcases hp with hp | hp <;> simp [SiCDSApp.call, hp, hm, hcond, hbody]
  · intro hp hm hsize hshape hbody
    have hcond : (match req.content_length with
        | some k => decide (k > SiCDSApp.REQMAXBYTES)
        | none => false) = false := by
      cases hcl : req.content_length with
      | none => rfl
      | some k =>
        simpa using Nat.not_lt.2 (hsize k hcl)
    cases hb : req.body with
    | none => exact absurd hb hbody
    | some j =>
      cases j with
      | idreq r => exact absurd rfl (hshape (ReqJson.idreq r) hb r)
      | keyreg r => simp [SiCDSApp.call, hp, hm, hcond, hb]
      | other => simp [SiCDSApp.call, hp, hm, hcond, hb]
  · intro hp hm hsize hshape hbody
    have hcond : (match req.content_length with
        | some k => decide (k > SiCDSApp.REQMAXBYTES)
        | none => false) = false := by
      cases hcl : req.content_length with
      | none => rfl
      | some k =>
        simpa using Nat.not_lt.2 (hsize k hcl)
    cases hb : req.body with
    | none => exact absurd hb hbody
    | some j =>
      cases j with
      | keyreg r => exact absurd rfl (hshape (ReqJson.keyreg r) hb r)
      | idreq r => simp [SiCDSApp.call, hp, hm, hcond, hb, hid_ne_reg.symm]
      | other => simp [SiCDSApp.call, hp, hm, hcond, hb, hid_ne_reg.symm]
  · unfold SiCDSApp.call
    split
    · simp [status, HError.status]
    · split
      · simp [status, HError.status]
      · split
        · simp [status, HError.status]
        · split
          · simp [status, HError.status]
          · split
            · split
              · rename_i r hbodyeq
                rcases identify_status app r with h | h <;> simp [status_map, h]
              · simp [status, HError.status]
            · split
              · rename_i r hbodyeq
                rcases register_status app r with h | h <;> simp [status_map, h]
              · simp [status, HError.status]

/-! ## C9 -/

/-- C9: the in-memory authorized key set never shrinks across any sequence
of handled requests; a single call leaves it superset-equal, and it changes
at all only on a successful call to the register route, which adds exactly
one key. -/
theorem c9_key_set_never_shrinks (app : SiCDSApp) (reqs : List Request) (req : Request) :
    app.keys ⊆ (runSeq app reqs).keys ∧
    app.keys ⊆ ((app.call req).2).keys ∧
    (((app.call req).2).keys ≠ app.keys →
      req.path_info = SiCDSApp.R_REGISTER_KEY ∧
      (∃ resp, (app.call req).1 = Except.ok resp) ∧
      ∃ k, ((app.call req).2).keys = insert k app.keys) := by
  refine ⟨runSeq_keys_mono reqs app, call_keys_subset app req, ?_⟩
  intro hne
  rcases call_keys_cases app req with h | h
  · exact absurd h hne
  · exact h

/-! ## C10 -/

/-- C10: the 1024-byte ceiling is checked against the declared
Content-Length only — a request without the header is never rejected 413
(Python compares `None > 1024` as false), a declared length within the
limit is never rejected 413, and the handler ignores the actual body byte
count entirely. -/
theorem c10_size_check_on_declared_length (app : SiCDSApp) (req : Request) (n : Nat) :
    (req.content_length = none → status (app.call req).1 ≠ 413) ∧
    (req.content_length = some n → n ≤ SiCDSApp.REQMAXBYTES →
      status (app.call req).1 ≠ 413) ∧
    (∀ m : Nat, app.call { req with body_bytes := m } = app.call req) := by
  refine ⟨?_, ?_, ?_⟩
  · intro hcl
    apply call_not_tooLarge
    rw [hcl]
  · intro hcl hle
    apply call_not_tooLarge
    rw [hcl]
    simpa using Nat.not_lt.2 hle
  · intro m
    cases req
    rfl

end SiCDS
